import Mathlib

/-!
Verification of the session command/capture engine of `tmux-mcp-server`.

The Go sources `internal/tmux/session.go` and `internal/server/server.go`
are shallowly embedded: pure string manipulation is translated directly,
and the calls into the external `tmux` binary are modelled by a `Host`
record of oracles plus a trace of `Effect`s that records every injection,
wait and capture the code performs, in order.
-/

namespace TmuxMcp

/-! ## Go standard-library string primitives

Modelled from the Go functions that `session.go` and `server.go` call.
Strings are Lean `String`s, manipulated through their character lists. -/

/-- Does the second list start with the first? Helper for `strings.HasPrefix`. -/
def chStarts : List Char → List Char → Bool
  | [], _ => true
  | _ :: _, [] => false
  | p :: ps, t :: ts => p == t && chStarts ps ts

/-- Modelled from Go `strings.HasPrefix s pre`. -/
def goStartsWith (s pre : String) : Bool := chStarts pre.data s.data

/-- Modelled from Go `strings.HasSuffix s suf`. -/
def goEndsWith (s suf : String) : Bool := chStarts suf.data.reverse s.data.reverse

/-- Modelled from Go `strings.TrimPrefix s pre`: drops `pre` when present. -/
def goTrimL (s pre : String) : String :=
  if goStartsWith s pre then String.mk (s.data.drop pre.data.length) else s

/-- Modelled from Go `strings.TrimSuffix s suf`: drops `suf` when present. -/
def goTrimR (s suf : String) : String :=
  if goEndsWith s suf then String.mk (s.data.take (s.data.length - suf.data.length)) else s

/-- Modelled from Go `strings.Split s sep` with a one-character separator:
splits at every occurrence, keeping empty fields; never returns `[]`. -/
def splitCh (c : Char) : List Char → List (List Char)
  | [] => [[]]
  | x :: xs =>
    if x == c then [] :: splitCh c xs
    else
      match splitCh c xs with
      | g :: gs => (x :: g) :: gs
      | [] => [[x]]

/-- The Unicode simple lowercase mapping (character database version 14.0)
as runs `(lo, count, step, delta)`: the code points `lo`, `lo + step`, ...,
`lo + step * (count - 1)` each lower-case by adding `delta`. This is the
per-rune table `unicode.ToLower` consults. -/
def lowerRuns : List (Nat × Nat × Nat × Int) :=
  [(0x41, 26, 1, 32), (0xC0, 23, 1, 32), (0xD8, 7, 1, 32), (0x100, 24, 2, 1),
   (0x130, 1, 1, -199), (0x132, 3, 2, 1), (0x139, 8, 2, 1), (0x14A, 23, 2, 1),
   (0x178, 1, 1, -121), (0x179, 3, 2, 1), (0x181, 1, 1, 210), (0x182, 2, 2, 1),
   (0x186, 1, 1, 206), (0x187, 1, 1, 1), (0x189, 2, 1, 205), (0x18B, 1, 1, 1),
   (0x18E, 1, 1, 79), (0x18F, 1, 1, 202), (0x190, 1, 1, 203), (0x191, 1, 1, 1),
   (0x193, 1, 1, 205), (0x194, 1, 1, 207), (0x196, 1, 1, 211), (0x197, 1, 1, 209),
   (0x198, 1, 1, 1), (0x19C, 1, 1, 211), (0x19D, 1, 1, 213), (0x19F, 1, 1, 214),
   (0x1A0, 3, 2, 1), (0x1A6, 1, 1, 218), (0x1A7, 1, 1, 1), (0x1A9, 1, 1, 218), (0x1AC, 1, 1, 1),
   (0x1AE, 1, 1, 218), (0x1AF, 1, 1, 1), (0x1B1, 2, 1, 217), (0x1B3, 2, 2, 1),
   (0x1B7, 1, 1, 219), (0x1B8, 1, 1, 1), (0x1BC, 1, 1, 1), (0x1C4, 1, 1, 2), (0x1C5, 1, 1, 1),
   (0x1C7, 1, 1, 2), (0x1C8, 1, 1, 1), (0x1CA, 1, 1, 2), (0x1CB, 9, 2, 1), (0x1DE, 9, 2, 1),
   (0x1F1, 1, 1, 2), (0x1F2, 2, 2, 1), (0x1F6, 1, 1, -97), (0x1F7, 1, 1, -56),
   (0x1F8, 20, 2, 1), (0x220, 1, 1, -130), (0x222, 9, 2, 1), (0x23A, 1, 1, 10795),
   (0x23B, 1, 1, 1), (0x23D, 1, 1, -163), (0x23E, 1, 1, 10792), (0x241, 1, 1, 1),
   (0x243, 1, 1, -195), (0x244, 1, 1, 69), (0x245, 1, 1, 71), (0x246, 5, 2, 1),
   (0x370, 2, 2, 1), (0x376, 1, 1, 1), (0x37F, 1, 1, 116), (0x386, 1, 1, 38), (0x388, 3, 1, 37),
   (0x38C, 1, 1, 64), (0x38E, 2, 1, 63), (0x391, 17, 1, 32), (0x3A3, 9, 1, 32),
   (0x3CF, 1, 1, 8), (0x3D8, 12, 2, 1), (0x3F4, 1, 1, -60), (0x3F7, 1, 1, 1), (0x3F9, 1, 1, -7),
   (0x3FA, 1, 1, 1), (0x3FD, 3, 1, -130), (0x400, 16, 1, 80), (0x410, 32, 1, 32),
   (0x460, 17, 2, 1), (0x48A, 27, 2, 1), (0x4C0, 1, 1, 15), (0x4C1, 7, 2, 1), (0x4D0, 48, 2, 1),
   (0x531, 38, 1, 48), (0x10A0, 38, 1, 7264), (0x10C7, 1, 1, 7264), (0x10CD, 1, 1, 7264),
   (0x13A0, 80, 1, 38864), (0x13F0, 6, 1, 8), (0x1C90, 43, 1, -3008), (0x1CBD, 3, 1, -3008),
   (0x1E00, 75, 2, 1), (0x1E9E, 1, 1, -7615), (0x1EA0, 48, 2, 1), (0x1F08, 8, 1, -8),
   (0x1F18, 6, 1, -8), (0x1F28, 8, 1, -8), (0x1F38, 8, 1, -8), (0x1F48, 6, 1, -8),
   (0x1F59, 4, 2, -8), (0x1F68, 8, 1, -8), (0x1F88, 8, 1, -8), (0x1F98, 8, 1, -8),
   (0x1FA8, 8, 1, -8), (0x1FB8, 2, 1, -8), (0x1FBA, 2, 1, -74), (0x1FBC, 1, 1, -9),
   (0x1FC8, 4, 1, -86), (0x1FCC, 1, 1, -9), (0x1FD8, 2, 1, -8), (0x1FDA, 2, 1, -100),
   (0x1FE8, 2, 1, -8), (0x1FEA, 2, 1, -112), (0x1FEC, 1, 1, -7), (0x1FF8, 2, 1, -128),
   (0x1FFA, 2, 1, -126), (0x1FFC, 1, 1, -9), (0x2126, 1, 1, -7517), (0x212A, 1, 1, -8383),
   (0x212B, 1, 1, -8262), (0x2132, 1, 1, 28), (0x2160, 16, 1, 16), (0x2183, 1, 1, 1),
   (0x24B6, 26, 1, 26), (0x2C00, 48, 1, 48), (0x2C60, 1, 1, 1), (0x2C62, 1, 1, -10743),
   (0x2C63, 1, 1, -3814), (0x2C64, 1, 1, -10727), (0x2C67, 3, 2, 1), (0x2C6D, 1, 1, -10780),
   (0x2C6E, 1, 1, -10749), (0x2C6F, 1, 1, -10783), (0x2C70, 1, 1, -10782), (0x2C72, 1, 1, 1),
   (0x2C75, 1, 1, 1), (0x2C7E, 2, 1, -10815), (0x2C80, 50, 2, 1), (0x2CEB, 2, 2, 1),
   (0x2CF2, 1, 1, 1), (0xA640, 23, 2, 1), (0xA680, 14, 2, 1), (0xA722, 7, 2, 1),
   (0xA732, 31, 2, 1), (0xA779, 2, 2, 1), (0xA77D, 1, 1, -35332), (0xA77E, 5, 2, 1),
   (0xA78B, 1, 1, 1), (0xA78D, 1, 1, -42280), (0xA790, 2, 2, 1), (0xA796, 10, 2, 1),
   (0xA7AA, 1, 1, -42308), (0xA7AB, 1, 1, -42319), (0xA7AC, 1, 1, -42315),
   (0xA7AD, 1, 1, -42305), (0xA7AE, 1, 1, -42308), (0xA7B0, 1, 1, -42258),
   (0xA7B1, 1, 1, -42282), (0xA7B2, 1, 1, -42261), (0xA7B3, 1, 1, 928), (0xA7B4, 8, 2, 1),
   (0xA7C4, 1, 1, -48), (0xA7C5, 1, 1, -42307), (0xA7C6, 1, 1, -35384), (0xA7C7, 2, 2, 1),
   (0xA7D0, 1, 1, 1), (0xA7D6, 2, 2, 1), (0xA7F5, 1, 1, 1), (0xFF21, 26, 1, 32),
   (0x10400, 40, 1, 40), (0x104B0, 36, 1, 40), (0x10570, 11, 1, 39), (0x1057C, 15, 1, 39),
   (0x1058C, 7, 1, 39), (0x10594, 2, 1, 39), (0x10C80, 51, 1, 64), (0x118A0, 32, 1, 32),
   (0x16E40, 32, 1, 32), (0x1E900, 34, 1, 34)]

/-- Modelled from Go `unicode.ToLower`, as `strings.ToLower` applies it to
every rune: the Unicode simple lowercase mapping via `lowerRuns`. -/
def goLowerChar (c : Char) : Char :=
  let n := c.toNat
  match lowerRuns.find? (fun r =>
      decide (r.1 ≤ n) && decide (n ≤ r.1 + r.2.2.1 * (r.2.1 - 1)) &&
        (n - r.1) % r.2.2.1 == 0) with
  | some r => Char.ofNat (((n : Int) + r.2.2.2).toNat)
  | none => c

/-- Modelled from Go `strings.ToLower`. -/
def goToLower (s : String) : String := String.mk (s.data.map goLowerChar)

/-- Byte-wise ASCII case folding, as `strconv`'s special-value comparison
(`inf`, `infinity`, `nan`) applies it. -/
def asciiLowerChar (c : Char) : Char :=
  if 'A' ≤ c ∧ c ≤ 'Z' then Char.ofNat (c.toNat + 32) else c

/-- Does `t` contain `p` as a contiguous run? Helper for `strings.Contains`. -/
def chHasRun (p : List Char) : List Char → Bool
  | [] => p.isEmpty
  | c :: cs => chStarts p (c :: cs) || chHasRun p cs

/-- Modelled from Go `strings.Contains s sub`. -/
def goContains (s sub : String) : Bool := chHasRun sub.data s.data

/-- Numeric value of a list of ASCII digits. -/
def digitsVal (cs : List Char) : Nat := cs.foldl (fun a c => a * 10 + (c.toNat - 48)) 0

/-- Modelled from Go `strconv.Atoi` (`ParseInt` base 10, bit size 0 = 64):
an optional sign followed by one or more ASCII digits, rejected (`ErrRange`)
when the value does not fit a signed 64-bit integer. -/
def goAtoi (s : String) : Option Int :=
  let p : Int × List Char :=
    match s.data with
    | '+' :: r => (1, r)
    | '-' :: r => (-1, r)
    | r => (1, r)
  if p.2.isEmpty || !p.2.all Char.isDigit then none
  else
    let v : Int := p.1 * (digitsVal p.2 : Nat)
    if v < -(2 ^ 63) || 2 ^ 63 - 1 < v then none else some v

/-- ASCII hexadecimal digit. -/
def isHexDig (c : Char) : Bool := c.isDigit || ('a' ≤ c && c ≤ 'f') || ('A' ≤ c && c ≤ 'F')

/-- Drops one leading sign character, if any. -/
def stripNumSign : List Char → List Char
  | '+' :: r => r
  | '-' :: r => r
  | r => r

/-- Scan with the previous character in hand: every underscore must stand
between two characters accepted by `dig` (Go's digit-separator rule). -/
def underscoreRun (dig : Char → Bool) : Char → List Char → Bool
  | _, [] => true
  | prevc, c :: rest =>
    (if c == '_' then
        dig prevc && (match rest with | d :: _ => dig d | [] => false)
      else true)
      && underscoreRun dig c rest

/-- Underscores of a numeral sit only between digits. -/
def underscoresOk (dig : Char → Bool) : List Char → Bool
  | [] => true
  | '_' :: _ => false
  | c :: rest => underscoreRun dig c rest

/-- Case-insensitive comparison against an ASCII keyword. -/
def lowerEq (cs : List Char) (w : String) : Bool := cs.map asciiLowerChar == w.data

/-- Value of one hexadecimal digit. -/
def hexDigVal (c : Char) : Nat :=
  if c.isDigit then c.toNat - 48
  else if 'a' ≤ c && c ≤ 'f' then c.toNat - 87
  else c.toNat - 55

/-- Numeric value of a list of hexadecimal digits. -/
def hexVal (cs : List Char) : Nat := cs.foldl (fun a c => a * 16 + hexDigVal c) 0

/-- Optional decimal exponent: empty gives 0; `e`/`E`, optional sign, digits
gives the signed exponent; anything else is malformed. -/
def decExpParse : List Char → Option Int
  | [] => some 0
  | c :: r =>
    if c == 'e' || c == 'E' then
      let p : Int × List Char :=
        match r with
        | '+' :: r2 => (1, r2)
        | '-' :: r2 => (-1, r2)
        | r2 => (1, r2)
      if !p.2.isEmpty && p.2.all Char.isDigit then some (p.1 * (digitsVal p.2 : Nat))
      else none
    else none

/-- Parses a sign- and underscore-free decimal numeral (digits, optional
fraction, optional exponent, at least one digit) into its significant
digits and the power of ten applied to them. -/
def decParse (cs : List Char) : Option (List Char × Int) :=
  let ip := cs.takeWhile Char.isDigit
  let r1 := cs.dropWhile Char.isDigit
  match r1 with
  | '.' :: r2 =>
    let fp := r2.takeWhile Char.isDigit
    let r3 := r2.dropWhile Char.isDigit
    if ip.isEmpty && fp.isEmpty then none
    else
      match decExpParse r3 with
      | some e => some (ip ++ fp, e - (fp.length : Int))
      | none => none
  | _ =>
    if ip.isEmpty then none
    else
      match decExpParse r1 with
      | some e => some (ip, e)
      | none => none

/-- Mandatory binary exponent of a hexadecimal float: `p`/`P`, optional
sign, decimal digits. -/
def hexExpParse : List Char → Option Int
  | [] => none
  | c :: r =>
    if c == 'p' || c == 'P' then
      let p : Int × List Char :=
        match r with
        | '+' :: r2 => (1, r2)
        | '-' :: r2 => (-1, r2)
        | r2 => (1, r2)
      if !p.2.isEmpty && p.2.all Char.isDigit then some (p.1 * (digitsVal p.2 : Nat))
      else none
    else none

/-- Parses an underscore-free hexadecimal mantissa with optional fraction
and its mandatory exponent into hex digits and the power of two applied. -/
def hexParse (cs : List Char) : Option (List Char × Int) :=
  let ip := cs.takeWhile isHexDig
  let r1 := cs.dropWhile isHexDig
  match r1 with
  | '.' :: r2 =>
    let fp := r2.takeWhile isHexDig
    let r3 := r2.dropWhile isHexDig
    if ip.isEmpty && fp.isEmpty then none
    else
      match hexExpParse r3 with
      | some e => some (ip ++ fp, e - 4 * (fp.length : Int))
      | none => none
  | _ =>
    if ip.isEmpty then none
    else
      match hexExpParse r1 with
      | some e => some (ip, e)
      | none => none

/-- The smallest magnitude that rounds to a float64 infinity: the midpoint
2^1024 - 2^970 just above the largest finite value (round half to even). -/
def floatTop : Nat := 2 ^ 1024 - 2 ^ 970

/-- Does the exact value digits·10^e round to infinity? This is the one
case `strconv.ParseFloat` reports `ErrRange` for (underflow to zero is not
an error); the two guards only avoid astronomic arithmetic and agree with
the exact comparison. -/
def decOverflow (ds : List Char) (e : Int) : Bool :=
  let m := digitsVal ds
  if m = 0 then false
  else if (ds.length : Int) + e ≤ 308 then false
  else if 310 ≤ e then true
  else if 0 ≤ e then decide (floatTop ≤ m * 10 ^ e.toNat)
  else decide (floatTop * 10 ^ (-e).toNat ≤ m)

/-- Hexadecimal counterpart of `decOverflow`: does digits·2^e round to
infinity? -/
def hexOverflow (ds : List Char) (e : Int) : Bool :=
  let m := hexVal ds
  if m = 0 then false
  else if 4 * (ds.length : Int) + e ≤ 1023 then false
  else if 1025 ≤ e then true
  else if 0 ≤ e then decide (floatTop ≤ m * 2 ^ e.toNat)
  else decide (floatTop * 2 ^ (-e).toNat ≤ m)

/-- Body of a hexadecimal float after the `0x` marker; Go allows one
digit separator directly after the marker. -/
def hexBody (r : List Char) : Bool :=
  let r2 : List Char :=
    match r with
    | '_' :: d :: rest => if isHexDig d then d :: rest else '_' :: d :: rest
    | other => other
  underscoresOk isHexDig r2 &&
    (match hexParse (r2.filter (fun c => c != '_')) with
     | some pr => !hexOverflow pr.1 pr.2
     | none => false)

/-- Modelled from Go `strconv.ParseFloat` (64-bit) success: `inf` and
`infinity` ASCII-case-insensitively with an optional sign, `nan` only
unsigned; a decimal mantissa with optional fraction and `e`-exponent; or a
`0x` hexadecimal mantissa with mandatory `p`-exponent; digit-group
underscores as in Go numeric literals; rejected (`ErrRange`) exactly when
the value rounds to infinity, while underflow to zero carries no error. -/
def goParseFloatOk (s : String) : Bool :=
  let cs0 := s.data
  let cs := stripNumSign cs0
  if lowerEq cs "inf" || lowerEq cs "infinity" || lowerEq cs0 "nan" then true
  else
    match cs with
    | '0' :: 'x' :: r => hexBody r
    | '0' :: 'X' :: r => hexBody r
    | _ =>
      underscoresOk Char.isDigit cs &&
        (match decParse (cs.filter (fun c => c != '_')) with
         | some pr => !decOverflow pr.1 pr.2
         | none => false)

/-! ## internal/tmux/session.go -/

/-- The fixed key table of `mapToTmuxKey`. -/
def keyMap : List (String × String) :=
  [("ENTER", "Enter"), ("ESC", "Escape"), ("TAB", "Tab"), ("BACKSPACE", "BSpace"),
   ("DELETE", "Delete"), ("UP", "Up"), ("DOWN", "Down"), ("LEFT", "Left"),
   ("RIGHT", "Right"), ("HOME", "Home"), ("END", "End"), ("PAGEUP", "PPage"),
   ("PAGEDOWN", "NPage"), ("SPACE", "Space")]

/-- Modelled from `mapToTmuxKey`: `CTRL+X` and `ALT+X` become `C-x` and `M-x`
with the key lower-cased; otherwise the fixed table is consulted, a missing
entry giving the Go map's zero value `""`. -/
def mapToTmuxKey (cmd : String) : String :=
  if goStartsWith cmd "CTRL+" then "C-" ++ goToLower (goTrimL cmd "CTRL+")
  else if goStartsWith cmd "ALT+" then "M-" ++ goToLower (goTrimL cmd "ALT+")
  else (keyMap.lookup cmd).getD ""

/-- A parsed `SLEEP` directive. The milliseconds variant carries the parsed
integer; the seconds variant keeps the numeral as written, because the Go
`float64` → `time.Duration` conversion is needed by no claim. -/
inductive PauseAmount where
  | ms (n : Int)
  | secs (raw : String)
deriving Repr, DecidableEq

/-- Modelled from `handleSleepCommand`: parses `SLEEP <n>ms` or `SLEEP <x>s`
from the bracket-stripped token, or reports which part is malformed. -/
def handleSleepCommand (cmd : String) : Except String PauseAmount :=
  match splitCh ' ' cmd.data with
  | [_, tcs] =>
    let timeStr := String.mk tcs
    if goEndsWith timeStr "ms" then
      let msStr := goTrimR timeStr "ms"
      match goAtoi msStr with
      | some n => .ok (.ms n)
      | none => .error ("invalid milliseconds value: " ++ msStr)
    else if goEndsWith timeStr "s" then
      let sStr := goTrimR timeStr "s"
      if goParseFloatOk sStr then .ok (.secs sStr)
      else .error ("invalid seconds value: " ++ sStr)
    else .error ("sleep time must end with 'ms' or 's': " ++ timeStr)
  | _ => .error ("invalid sleep command format: " ++ cmd)

/-- One observable interaction of the embedded code with its environment:
a translated key injection, a literal-mode text injection, the wait of a
`SLEEP` token, the inter-token pacing sleep, or a screen capture. -/
inductive Effect where
  | key (k : String)
  | lit (t : String)
  | pause (p : PauseAmount)
  | interDelay (ms : Int)
  | capture
deriving Repr, DecidableEq

/-- The external tmux process, as the oracles the embedded code consults:
whether each `send-keys` invocation fails (and with what error text), and
what `capture-pane` returns. -/
structure Host where
  keyErr : String → Option String
  litErr : String → Option String
  sendKeysErr : String → Option String
  captureRaw : Except String String

/-- The error `executeSpecialCommand` reports for a symbolic token that is
neither a `SLEEP` directive nor a known key. -/
def unknownSpecialMsg (command : String) : String := "unknown special command: " ++ command

/-- Modelled from `sendLiteralText`: `tmux send-keys -l` with the text verbatim. -/
def sendLiteralText (host : Host) (text : String) : List Effect × Option String :=
  ([Effect.lit text], host.litErr text)

/-- Modelled from `executeSpecialCommand`: strips the `<` `>` brackets,
routes `SLEEP `-prefixed bodies to the pause parser, and otherwise
translates and injects the named key. -/
def executeSpecialCommand (host : Host) (command : String) : List Effect × Option String :=
  let cmd := goTrimL (goTrimR command ">") "<"
  if goStartsWith cmd "SLEEP " then
    match handleSleepCommand cmd with
    | .ok p => ([Effect.pause p], none)
    | .error e => ([], some e)
  else
    let tmuxKey := mapToTmuxKey cmd
    if tmuxKey = "" then ([], some (unknownSpecialMsg command))
    else ([Effect.key tmuxKey], host.keyErr tmuxKey)

/-- One iteration's dispatch in `SendCommands`: the wrapper test routes the
token to `executeSpecialCommand` or to `sendLiteralText`. -/
def tokenRes (host : Host) (command : String) : List Effect × Option String :=
  if goStartsWith command "<" && goEndsWith command ">" then
    executeSpecialCommand host command
  else
    sendLiteralText host command

/-- The error `SendCommands` returns for the failing token at 0-based
index `i`, as formatted by the two `fmt.Errorf` calls. -/
def wrapTokenErr (i : Nat) (command e : String) : String :=
  if goStartsWith command "<" && goEndsWith command ">" then
    "failed to execute command " ++ toString (i + 1) ++ " ('" ++ command ++ "'): " ++ e
  else
    "failed to send literal text " ++ toString (i + 1) ++ " ('" ++ command ++ "'): " ++ e

/-- The loop of `SendCommands` from 0-based index `i`: dispatch each token,
stop at the first failure, and apply the inter-token delay after every
successful token not prefixed `<SLEEP`. -/
def sendLoop (host : Host) (defaultDelayMs : Int) :
    List String → Nat → List Effect × Option String
  | [], _ => ([], none)
  | command :: rest, i =>
    let r := tokenRes host command
    match r.2 with
    | some e => (r.1, some (wrapTokenErr i command e))
    | none =>
      let ds : List Effect :=
        if 0 < defaultDelayMs ∧ goStartsWith command "<SLEEP" = false then
          [Effect.interDelay defaultDelayMs]
        else []
      let k := sendLoop host defaultDelayMs rest (i + 1)
      (r.1 ++ ds ++ k.1, k.2)

/-- Single escape character. -/
def esc : Char := Char.ofNat 27

/-- A byte the SGR parameter run may hold: an ASCII digit or `;`. -/
def isSgrByte (c : Char) : Bool := c.isDigit || c == ';'

theorem dropWhileLenLe (p : Char → Bool) : ∀ l : List Char,
    (l.dropWhile p).length ≤ l.length := by
  intro l
  induction l with
  | nil => simp
  | cons a l ih =>
    rw [List.dropWhile_cons]
    by_cases h : p a = true <;> simp [h] <;> omega

/-- After an escape byte: does the rest start with `[`, a run of parameter
bytes, then `m`? Returns what follows the match. -/
def sgrTail : List Char → Option (List Char)
  | [] => none
  | c :: r =>
    if c = '[' then
      let t := r.dropWhile isSgrByte
      if t.head? = some 'm' then some t.tail else none
    else none

theorem sgrTail_length : ∀ {cs rest : List Char}, sgrTail cs = some rest →
    rest.length < cs.length := by
  intro cs rest h
  cases cs with
  | nil => simp [sgrTail] at h
  | cons c r =>
    simp only [sgrTail] at h
    split at h
    · split at h
      next hhd =>
        cases h
        have hne : r.dropWhile isSgrByte ≠ [] := by
          intro hnil
          rw [hnil] at hhd
          simp at hhd
        have hpos : 0 < (r.dropWhile isSgrByte).length := List.length_pos.mpr hne
        have hle : (r.dropWhile isSgrByte).length ≤ r.length := dropWhileLenLe _ r
        have htl : (r.dropWhile isSgrByte).tail.length =
            (r.dropWhile isSgrByte).length - 1 := List.length_tail _
        simp only [List.length_cons]
        omega
      next => exact absurd h (by simp)
    · exact absurd h (by simp)

/-- Modelled from `stripAnsiCodes`: delete every run matching the regular
expression `ESC [ [0-9;]* m`, scanning left to right, leaving every other
byte in place. -/
def stripAux : List Char → List Char
  | [] => []
  | c :: cs =>
    if c = esc then
      match h : sgrTail cs with
      | some rest => stripAux rest
      | none => c :: stripAux cs
    else c :: stripAux cs
termination_by l => l.length
decreasing_by
  · exact Nat.lt_succ_of_lt (sgrTail_length h)
  · exact Nat.lt_succ_self _
  · exact Nat.lt_succ_self _

/-- Modelled from `stripAnsiCodes` on Go strings. -/
def stripAnsiCodes (s : String) : String := String.mk (stripAux s.data)

/-- Modelled from `CapturePaneRaw`: the host's capture output, the failure
wrapped, the content ANSI-stripped when requested. -/
def capturePaneRaw (host : Host) (stripAnsi : Bool) : Except String String :=
  match host.captureRaw with
  | .error e => .error ("failed to capture screen: " ++ e)
  | .ok output => .ok (if stripAnsi then stripAnsiCodes output else output)

/-- Modelled from `CapturePane`: capture with stripping on. -/
def capturePane (host : Host) : Except String String := capturePaneRaw host true

/-- Modelled from `SendCommands`: runs the token loop, then on success
appends the success marker and the optional trailing capture — whose
failure becomes a warning in the report, not an error. -/
def sendCommands (host : Host) (sessionName : String) (commands : List String)
    (defaultDelayMs : Int) (captureScreen : Bool) : List Effect × Except String String :=
  let header := "Executing " ++ toString commands.length ++ " commands on session '" ++
    sessionName ++ "':\n"
  let run := sendLoop host defaultDelayMs commands 0
  match run.2 with
  | some e => (run.1, .error e)
  | none =>
    let base := header ++ "Commands executed successfully.\n"
    if captureScreen then
      match capturePane host with
      | .error e =>
        (run.1 ++ [Effect.capture],
         .ok (base ++ "Warning: Failed to capture screen: " ++ e ++ "\n"))
      | .ok content =>
        (run.1 ++ [Effect.capture], .ok (base ++ "\nScreen content:\n" ++ content))
    else (run.1, .ok base)

/-- Modelled from `StartSession`: the argument list handed to the tmux
binary — fixed 80×24 geometry, the working directory and the command
appended only when non-empty. -/
def startSessionArgs (sessionName command workingDir : String) : List String :=
  let args := ["new-session", "-d", "-s", sessionName, "-x", "80", "-y", "24"]
  let args2 := if workingDir ≠ "" then args ++ ["-c", workingDir] else args
  if command ≠ "" then args2 ++ [command] else args2

/-! ## internal/server/server.go -/

/-- Modelled from `gitOperation`: the record the interactive-prompt tracker
keeps per operation id (`StartTime` as an abstract tick). -/
structure GitOperation where
  SessionName : String
  Command : String
  StartTime : Nat
  WorkingDir : String
  Status : String
deriving Repr, DecidableEq

/-- The tracker's id → record map (`gitOperations`), with Go map semantics. -/
def GitOps := String → Option GitOperation

/-- Modelled from `sendCommandsHandler`: the `default_delay_ms` argument
falls back to 100 when the caller omits it. The transport's float-to-int
narrowing is needed by no claim, so the value is carried as an integer. -/
def resolvedDefaultDelayMs (provided : Option Int) : Int := provided.getD 100

/-- Modelled from `gitAddPatchRespondHandler`: look the operation up,
reject an unknown id and a non-active record, inject the response and the
execute key, capture, and transition the status when the completion
sentinel shows in the capture. Returns the updated map and the handler's
result. -/
def gitAddPatchRespond (host : Host) (ops : GitOps) (sessionID response : String) :
    GitOps × Except String String :=
  match ops sessionID with
  | none =>
    (ops, .error ("Git operation with session ID '" ++ sessionID ++ "' not found"))
  | some op =>
    if op.Status ≠ "active" then
      (ops, .error ("Git operation '" ++ sessionID ++ "' is not active (status: " ++
        op.Status ++ ")"))
    else
      match host.sendKeysErr response with
      | some e => (ops, .error ("Failed to send response: " ++ e))
      | none =>
        match host.sendKeysErr "Enter" with
        | some e => (ops, .error ("Failed to send ENTER: " ++ e))
        | none =>
          match capturePane host with
          | .error e => (ops, .error ("Failed to capture screen: " ++ e))
          | .ok content =>
            let ops2 : GitOps :=
              if goContains content "EXIT_STATUS:" then
                fun k =>
                  if k = sessionID then
                    some { op with Status :=
                      if goContains content "EXIT_STATUS:0" then "finished" else "error" }
                  else ops k
              else ops
            (ops2, .ok ("Response '" ++ response ++
              "' sent to git add -p operation.\n\nCurrent screen:\n" ++ content))

/-- The host on which every tmux invocation succeeds and the capture is empty. -/
def allOkHost : Host := ⟨fun _ => none, fun _ => none, fun _ => none, .ok ""⟩

/-- Per-token effects of the `SendCommands` loop when every token succeeds:
the token's own effects, then the inter-token delay unless the token is
`<SLEEP`-prefixed or the delay non-positive. -/
def loopEffs (host : Host) (d : Int) (commands : List String) : List Effect :=
  commands.bind fun c =>
    (tokenRes host c).1 ++
      (if 0 < d ∧ goStartsWith c "<SLEEP" = false then [Effect.interDelay d] else [])

/-- A string matching the SGR pattern `ESC [ [0-9;]* m` exactly. -/
def IsSgrSeq (m : String) : Prop :=
  ∃ ps, (∀ ch ∈ ps, isSgrByte ch = true) ∧ m.data = esc :: '[' :: ps ++ ['m']

/-! ## String infrastructure lemmas -/

theorem strExt {a b : String} (h : a.data = b.data) : a = b := by
  cases a; cases b; cases h; rfl

theorem strEta (s : String) : String.mk s.data = s := by cases s; rfl

theorem strAppendData (a b : String) : (a ++ b).data = a.data ++ b.data := by
  cases a; cases b; rfl

theorem chStarts_iff : ∀ p t : List Char, chStarts p t = true ↔ ∃ r, t = p ++ r := by
  intro p
  induction p with
  | nil => intro t; simp [chStarts]
  | cons x xs ih =>
    intro t
    cases t with
    | nil => simp [chStarts]
    | cons y ys =>
      simp only [chStarts, Bool.and_eq_true, beq_iff_eq, List.cons_append]
      constructor
      · rintro ⟨hxy, hs⟩
        subst hxy
        obtain ⟨r, hr⟩ := (ih ys).mp hs
        exact ⟨r, by rw [hr]⟩
      · rintro ⟨r, hr⟩
        injection hr with h1 h2
        exact ⟨h1.symm, (ih _).mpr ⟨r, h2⟩⟩

theorem goStartsWith_iff (s pre : String) :
    goStartsWith s pre = true ↔ ∃ r, s.data = pre.data ++ r := chStarts_iff _ _

theorem goEndsWith_iff (s suf : String) :
    goEndsWith s suf = true ↔ ∃ r, s.data = r ++ suf.data := by
  unfold goEndsWith
  rw [chStarts_iff]
  constructor
  · rintro ⟨q, hq⟩
    refine ⟨q.reverse, ?_⟩
    have := congrArg List.reverse hq
    simpa using this
  · rintro ⟨r, hr⟩
    exact ⟨r.reverse, by rw [hr]; simp⟩

theorem dropLenApp (p : List Char) : ∀ r : List Char, (p ++ r).drop p.length = r := by
  induction p with
  | nil => simp
  | cons x xs ih => intro r; simpa using ih r

theorem takeLenApp (p : List Char) : ∀ r : List Char, (p ++ r).take p.length = p := by
  induction p with
  | nil => simp
  | cons x xs ih => intro r; simpa using ih r

theorem goTrimL_of_data {s pre : String} {r : List Char} (h : s.data = pre.data ++ r) :
    goTrimL s pre = String.mk r := by
  unfold goTrimL
  rw [if_pos ((goStartsWith_iff s pre).mpr ⟨r, h⟩), h, dropLenApp]

theorem goTrimR_of_data {s suf : String} {r : List Char} (h : s.data = r ++ suf.data) :
    goTrimR s suf = String.mk r := by
  unfold goTrimR
  rw [if_pos ((goEndsWith_iff s suf).mpr ⟨r, h⟩), h]
  have hlen : (r ++ suf.data).length - suf.data.length = r.length := by
    simp
  rw [hlen, takeLenApp]

/-! ## C3: the key translator -/

theorem goStartsWith_append (p x : String) : goStartsWith (p ++ x) p = true :=
  (goStartsWith_iff _ _).mpr ⟨x.data, strAppendData _ _⟩

theorem goTrimL_append (p x : String) : goTrimL (p ++ x) p = x := by
  rw [goTrimL_of_data (strAppendData p x), strEta]

theorem alt_not_ctrl (x : String) : goStartsWith ("ALT+" ++ x) "CTRL+" = false := by
  have h1 : ("ALT+" ++ x).data = 'A' :: 'L' :: 'T' :: '+' :: x.data := by
    rw [strAppendData]; rfl
  unfold goStartsWith
  rw [h1]
  rfl

theorem lookup_none_of_notMem {cmd : String}
    (h : cmd ∉ ["ENTER", "ESC", "TAB", "BACKSPACE", "DELETE", "UP", "DOWN", "LEFT",
      "RIGHT", "HOME", "END", "PAGEUP", "PAGEDOWN", "SPACE"]) :
    keyMap.lookup cmd = none := by
  simp only [List.mem_cons, List.not_mem_nil, or_false, not_or] at h
  obtain ⟨e1, e2, e3, e4, e5, e6, e7, e8, e9, e10, e11, e12, e13, e14⟩ := h
  have f : ∀ k : String, cmd ≠ k → (cmd == k) = false := fun k hk =>
    beq_eq_false_iff_ne.mpr hk
  simp [keyMap, List.lookup, f _ e1, f _ e2, f _ e3, f _ e4, f _ e5, f _ e6, f _ e7,
    f _ e8, f _ e9, f _ e10, f _ e11, f _ e12, f _ e13, f _ e14]

/-- C3. The key translator equals the documented reference mapping: the
fourteen named keys translate case-sensitively by the fixed table;
`CTRL+X`/`ALT+X` translate to `C-`/`M-` followed by `X` lower-cased for
arbitrary `X`; every other name is unrecognized (the Go zero value `""`,
which `executeSpecialCommand` reports as unknown). -/
theorem c3_keyTranslator_reference :
    (mapToTmuxKey "ENTER" = "Enter" ∧ mapToTmuxKey "ESC" = "Escape" ∧
     mapToTmuxKey "TAB" = "Tab" ∧ mapToTmuxKey "BACKSPACE" = "BSpace" ∧
     mapToTmuxKey "DELETE" = "Delete" ∧ mapToTmuxKey "UP" = "Up" ∧
     mapToTmuxKey "DOWN" = "Down" ∧ mapToTmuxKey "LEFT" = "Left" ∧
     mapToTmuxKey "RIGHT" = "Right" ∧ mapToTmuxKey "HOME" = "Home" ∧
     mapToTmuxKey "END" = "End" ∧ mapToTmuxKey "PAGEUP" = "PPage" ∧
     mapToTmuxKey "PAGEDOWN" = "NPage" ∧ mapToTmuxKey "SPACE" = "Space") ∧
    (∀ x : String, mapToTmuxKey ("CTRL+" ++ x) = "C-" ++ goToLower x) ∧
    (∀ x : String, mapToTmuxKey ("ALT+" ++ x) = "M-" ++ goToLower x) ∧
    (∀ cmd : String, goStartsWith cmd "CTRL+" = false → goStartsWith cmd "ALT+" = false →
      cmd ∉ ["ENTER", "ESC", "TAB", "BACKSPACE", "DELETE", "UP", "DOWN", "LEFT",
        "RIGHT", "HOME", "END", "PAGEUP", "PAGEDOWN", "SPACE"] →
      mapToTmuxKey cmd = "") := by
  refine ⟨⟨rfl, rfl, rfl, rfl, rfl, rfl, rfl, rfl, rfl, rfl, rfl, rfl, rfl, rfl⟩, ?_, ?_, ?_⟩
  · intro x
    unfold mapToTmuxKey
    rw [if_pos (goStartsWith_append "CTRL+" x), goTrimL_append]
  · intro x
    unfold mapToTmuxKey
    rw [if_neg (by simp [alt_not_ctrl x]), if_pos (goStartsWith_append "ALT+" x),
      goTrimL_append]
  · intro cmd h1 h2 h3
    unfold mapToTmuxKey
    rw [if_neg (by simp [h1]), if_neg (by simp [h2]), lookup_none_of_notMem h3]
    rfl

/-- C3 witness: the unrecognized branch at the lower-cased name `enter`. -/
theorem c3_keyTranslator_reference_witness :
    mapToTmuxKey "enter" = "" :=
  c3_keyTranslator_reference.2.2.2 "enter" (by rfl) (by rfl) (by decide)

/-! ## C9: session creation arguments -/

/-- C9. Sessions are created with the fixed 80×24 geometry; the `-c`
working-directory option appears exactly when `workingDir` is non-empty,
and the command replaces the shell exactly when non-empty. -/
theorem c9_startSession_args (sessionName command workingDir : String) :
    startSessionArgs sessionName command workingDir =
      ["new-session", "-d", "-s", sessionName, "-x", "80", "-y", "24"] ++
        (if workingDir = "" then [] else ["-c", workingDir]) ++
        (if command = "" then [] else [command]) := by
  unfold startSessionArgs
  by_cases hw : workingDir = "" <;> by_cases hc : command = "" <;> simp [hw, hc]

/-! ## C1: wrapper-delimited dispatch -/

theorem startsLt_iff (c : String) :
    goStartsWith c "<" = true ↔ c.data.head? = some '<' := by
  unfold goStartsWith
  show chStarts ['<'] c.data = true ↔ _
  cases h : c.data with
  | nil => simp [chStarts]
  | cons x xs =>
    simp only [chStarts, Bool.and_eq_true, beq_iff_eq, List.head?_cons, Option.some.injEq]
    constructor
    · rintro ⟨h1, _⟩
      exact h1.symm
    · intro h1
      exact ⟨h1.symm, trivial⟩

theorem endsGt_iff (c : String) :
    goEndsWith c ">" = true ↔ c.data.getLast? = some '>' := by
  unfold goEndsWith
  show chStarts ['>'] c.data.reverse = true ↔ _
  rw [← List.head?_reverse]
  cases h : c.data.reverse with
  | nil => simp [chStarts]
  | cons x xs =>
    simp only [chStarts, Bool.and_eq_true, beq_iff_eq, List.head?_cons, Option.some.injEq]
    constructor
    · rintro ⟨h1, _⟩
      exact h1.symm
    · intro h1
      exact ⟨h1.symm, trivial⟩

theorem executeSpecial_no_lit (host : Host) (command : String) :
    ∀ t, Effect.lit t ∉ (executeSpecialCommand host command).1 := by
  intro t
  simp only [executeSpecialCommand]
  split
  · split <;> simp
  · split <;> simp

/-- C1. A token is dispatched symbolically exactly when it begins with `<`
and ends with `>`; every other token goes to the host byte-identical via
the literal-injection path, with no symbolic reinterpretation. -/
theorem c1_wrapper_dispatch (host : Host) (c : String) :
    ((c.data.head? = some '<' ∧ c.data.getLast? = some '>') →
      tokenRes host c = executeSpecialCommand host c ∧
        ∀ t, Effect.lit t ∉ (tokenRes host c).1) ∧
    (¬(c.data.head? = some '<' ∧ c.data.getLast? = some '>') →
      tokenRes host c = ([Effect.lit c], host.litErr c)) := by
  constructor
  · rintro ⟨h1, h2⟩
    have hb : (goStartsWith c "<" && goEndsWith c ">") = true := by
      rw [Bool.and_eq_true, startsLt_iff c, endsGt_iff c]
      exact ⟨h1, h2⟩
    have ht : tokenRes host c = executeSpecialCommand host c := by
      unfold tokenRes
      rw [if_pos hb]
    exact ⟨ht, by rw [ht]; exact executeSpecial_no_lit host c⟩
  · intro h
    have hb : ¬(goStartsWith c "<" && goEndsWith c ">") = true := by
      intro hb
      rw [Bool.and_eq_true] at hb
      exact h ⟨(startsLt_iff c).mp hb.1, (endsGt_iff c).mp hb.2⟩
    unfold tokenRes sendLiteralText
    rw [if_neg hb]

/-- C1 witness: the symbolic branch at `<ENTER>`, and the literal branch at a
token containing angle brackets but not wrapped in them. -/
theorem c1_wrapper_dispatch_witness :
    (tokenRes allOkHost "<ENTER>" = executeSpecialCommand allOkHost "<ENTER>" ∧
      ∀ t, Effect.lit t ∉ (tokenRes allOkHost "<ENTER>").1) ∧
    tokenRes allOkHost "a<b>" = ([Effect.lit "a<b>"], allOkHost.litErr "a<b>") :=
  ⟨(c1_wrapper_dispatch allOkHost "<ENTER>").1 (by exact ⟨rfl, rfl⟩),
   (c1_wrapper_dispatch allOkHost "a<b>").2 (by decide)⟩

/-! ## C2, C5, C6: the SendCommands loop -/

theorem sendLoop_ok (host : Host) (d : Int) :
    ∀ (cmds : List String) (i : Nat), (∀ x ∈ cmds, (tokenRes host x).2 = none) →
      sendLoop host d cmds i = (loopEffs host d cmds, none) := by
  intro cmds
  induction cmds with
  | nil => intro i _; rfl
  | cons c rest ih =>
    intro i h
    have hc : (tokenRes host c).2 = none := h c (by simp)
    have hrest : ∀ x ∈ rest, (tokenRes host x).2 = none := fun x hx => h x (by simp [hx])
    simp only [sendLoop]
    rw [hc, ih (i + 1) hrest]
    simp [loopEffs, List.cons_bind, List.append_assoc]

theorem sendLoop_fail (host : Host) (d : Int) :
    ∀ (pre : List String) (c : String) (post : List String) (e : String) (i : Nat),
      (∀ x ∈ pre, (tokenRes host x).2 = none) →
      (tokenRes host c).2 = some e →
      sendLoop host d (pre ++ c :: post) i =
        (loopEffs host d pre ++ (tokenRes host c).1,
          some (wrapTokenErr (i + pre.length) c e)) := by
  intro pre
  induction pre with
  | nil =>
    intro c post e i _ hc
    simp only [List.nil_append, sendLoop]
    rw [hc]
    simp [loopEffs]
  | cons p pre ih =>
    intro c post e i h hc
    have hp : (tokenRes host p).2 = none := h p (by simp)
    simp only [List.cons_append, sendLoop, List.append_eq, hp]
    rw [ih c post e (i + 1) (fun x hx => h x (by simp [hx])) hc]
    have hn : i + 1 + pre.length = i + (p :: pre).length := by
      simp only [List.length_cons]
      omega
    rw [hn]
    simp [loopEffs, List.cons_bind, List.append_assoc]

/-- C2. Fail-fast with a 1-based report: when the tokens before `c` all
succeed and `c` fails with underlying error `e`, the call returns the
wrapped error naming position `pre.length + 1` and the token's text, the
trace holds only the tokens up to and including `c` (nothing from `post`,
no capture), and the message is one of the two `fmt.Errorf` formats, each
embedding the 1-based index, the token text and the underlying error. -/
theorem c2_failFast (host : Host) (s : String) (d : Int) (cap : Bool)
    (pre : List String) (c : String) (post : List String) (e : String)
    (hpre : ∀ x ∈ pre, (tokenRes host x).2 = none)
    (hc : (tokenRes host c).2 = some e) :
    sendCommands host s (pre ++ c :: post) d cap =
      (loopEffs host d pre ++ (tokenRes host c).1,
        .error (wrapTokenErr pre.length c e)) ∧
    (∃ k, wrapTokenErr pre.length c e =
        k ++ toString (pre.length + 1) ++ " ('" ++ c ++ "'): " ++ e ∧
      (k = "failed to execute command " ∨ k = "failed to send literal text ")) := by
  constructor
  · unfold sendCommands
    rw [sendLoop_fail host d pre c post e 0 hpre hc]
    simp
  · unfold wrapTokenErr
    split
    · exact ⟨"failed to execute command ", rfl, Or.inl rfl⟩
    · exact ⟨"failed to send literal text ", rfl, Or.inr rfl⟩

/-- The host on which the literal token `bad` fails with error `boom`. -/
def badHost : Host :=
  ⟨fun _ => none, fun t => if t = "bad" then some "boom" else none, fun _ => none, .ok ""⟩

/-- C2 witness: token 3 of 5 fails; the report names index 3 and the trace
stops there. -/
theorem c2_failFast_witness :
    sendCommands badHost "s" (["a", "b"] ++ "bad" :: ["d", "e"]) 100 true =
      (loopEffs badHost 100 ["a", "b"] ++ (tokenRes badHost "bad").1,
        .error (wrapTokenErr (["a", "b"] : List String).length "bad" "boom")) ∧
    (∃ k, wrapTokenErr (["a", "b"] : List String).length "bad" "boom" =
        k ++ toString ((["a", "b"] : List String).length + 1) ++ " ('" ++ "bad" ++
          "'): " ++ "boom" ∧
      (k = "failed to execute command " ∨ k = "failed to send literal text ")) :=
  c2_failFast badHost "s" 100 true ["a", "b"] "bad" ["d", "e"] "boom" (by decide) rfl

/-- C5 (amended). After every successful token not prefixed `<SLEEP` —
including the last — the loop sleeps the inter-token delay when it is
positive; any token with the `<SLEEP` prefix (a valid pause token or not)
is exempt; the caller-omitted delay defaults to 100 ms. -/
theorem c5_interTokenDelay_amended (host : Host) (s : String) (cmds : List String)
    (d : Int) (cap : Bool) (h : ∀ x ∈ cmds, (tokenRes host x).2 = none) :
    (sendCommands host s cmds d cap).1 =
      loopEffs host d cmds ++ (if cap then [Effect.capture] else []) ∧
    resolvedDefaultDelayMs none = 100 := by
  refine ⟨?_, rfl⟩
  unfold sendCommands
  rw [sendLoop_ok host d cmds 0 h]
  cases cap
  · simp
  · cases hcp : capturePane host <;> simp [hcp]

/-- C5 counterexample: `<SLEEPx` is a literal, non-pause token (injected
byte-identically), yet no inter-token delay follows it, because the
exemption keys on the `<SLEEP` prefix alone; and the delay also follows
the final token `hi`, not only positions between tokens. -/
theorem c5_interTokenDelay_counterexample :
    sendCommands allOkHost "s" ["<SLEEPx"] 100 false =
      ([Effect.lit "<SLEEPx"],
        .ok "Executing 1 commands on session 's':\nCommands executed successfully.\n") ∧
    Effect.interDelay 100 ∉ (sendCommands allOkHost "s" ["<SLEEPx"] 100 false).1 ∧
    sendCommands allOkHost "s" ["hi"] 100 false =
      ([Effect.lit "hi", Effect.interDelay 100],
        .ok "Executing 1 commands on session 's':\nCommands executed successfully.\n") :=
  ⟨rfl, by decide, rfl⟩

/-- C5 witness: the amended delay structure on a mixed sequence. -/
theorem c5_interTokenDelay_amended_witness :
    (sendCommands allOkHost "s" ["hi", "<SLEEP 5ms>", "<ENTER>"] 100 false).1 =
      loopEffs allOkHost 100 ["hi", "<SLEEP 5ms>", "<ENTER>"] ++
        (if false then [Effect.capture] else []) ∧
    resolvedDefaultDelayMs none = 100 :=
  c5_interTokenDelay_amended allOkHost "s" ["hi", "<SLEEP 5ms>", "<ENTER>"] 100 false
    (by decide)

/-- C6. When every token succeeds and the trailing capture is requested but
fails, the call still returns success, with the capture failure downgraded
to a warning appended to the report. -/
theorem c6_captureWarning (host : Host) (s : String) (cmds : List String) (d : Int)
    (e : String) (hok : ∀ x ∈ cmds, (tokenRes host x).2 = none)
    (hcap : host.captureRaw = .error e) :
    sendCommands host s cmds d true =
      (loopEffs host d cmds ++ [Effect.capture],
        .ok ("Executing " ++ toString cmds.length ++ " commands on session '" ++ s ++
          "':\n" ++ "Commands executed successfully.\n" ++
          "Warning: Failed to capture screen: " ++
          ("failed to capture screen: " ++ e) ++ "\n")) := by
  unfold sendCommands
  rw [sendLoop_ok host d cmds 0 hok]
  have hcp : capturePane host = .error ("failed to capture screen: " ++ e) := by
    unfold capturePane capturePaneRaw
    rw [hcap]
  simp [hcp]

/-- The host on which every injection succeeds but the capture fails. -/
def capFailHost : Host := ⟨fun _ => none, fun _ => none, fun _ => none, .error "gone"⟩

/-- C6 witness: a successful one-token sequence whose trailing capture
fails still returns success with the warning. -/
theorem c6_captureWarning_witness :
    sendCommands capFailHost "s" ["hi"] 0 true =
      (loopEffs capFailHost 0 ["hi"] ++ [Effect.capture],
        .ok ("Executing " ++ toString (["hi"] : List String).length ++
          " commands on session '" ++ "s" ++ "':\n" ++
          "Commands executed successfully.\n" ++
          "Warning: Failed to capture screen: " ++
          ("failed to capture screen: " ++ "gone") ++ "\n")) :=
  c6_captureWarning capFailHost "s" ["hi"] 0 "gone" (by decide) rfl

/-! ## C4: timed-pause parsing -/

theorem splitCh_ne_nil (c : Char) : ∀ l : List Char, splitCh c l ≠ [] := by
  intro l
  cases l with
  | nil => simp [splitCh]
  | cons x xs =>
    simp only [splitCh]
    split
    · simp
    · split <;> simp

theorem splitCh_cons_ne {c x : Char} (h : (x == c) = false) {xs hd : List Char}
    {tl : List (List Char)} (hs : splitCh c xs = hd :: tl) :
    splitCh c (x :: xs) = (x :: hd) :: tl := by
  simp [splitCh, h, hs]

theorem splitCh_single {c : Char} : ∀ {l g : List Char}, splitCh c l = [g] →
    g = l ∧ c ∉ l := by
  intro l
  induction l with
  | nil =>
    intro g h
    simp only [splitCh] at h
    injection h with h1 _
    cases h1
    exact ⟨rfl, by simp⟩
  | cons x xs ih =>
    intro g h
    by_cases hx : (x == c) = true
    · rw [show splitCh c (x :: xs) = [] :: splitCh c xs by simp [splitCh, hx]] at h
      injection h with h1 h2
      exact absurd h2 (splitCh_ne_nil c xs)
    · have hx' : (x == c) = false := by simpa using hx
      cases hs : splitCh c xs with
      | nil => exact absurd hs (splitCh_ne_nil c xs)
      | cons hd tl =>
        rw [splitCh_cons_ne hx' hs] at h
        injection h with h1 h2
        subst h2
        obtain ⟨hhd, hnot⟩ := ih hs
        subst hhd
        refine ⟨h1.symm, ?_⟩
        simp only [List.mem_cons, not_or]
        exact ⟨fun hcx => by simp [hcx.symm] at hx', hnot⟩

theorem splitCh_no_sep {c : Char} : ∀ {l : List Char}, c ∉ l → splitCh c l = [l] := by
  intro l
  induction l with
  | nil => intro _; rfl
  | cons x xs ih =>
    intro h
    simp only [List.mem_cons, not_or] at h
    have hx : (x == c) = false := by
      simp only [beq_eq_false_iff_ne, ne_eq]
      exact fun hxc => h.1 hxc.symm
    exact splitCh_cons_ne hx (ih h.2)

theorem splitCh_sleep (t : List Char) :
    splitCh ' ' ("SLEEP ".data ++ t) = "SLEEP".data :: splitCh ' ' t := by
  have h0 : splitCh ' ' (' ' :: t) = [] :: splitCh ' ' t := by
    simp [splitCh]
  have h1 : splitCh ' ' ('P' :: ' ' :: t) = ['P'] :: splitCh ' ' t :=
    splitCh_cons_ne (by decide) h0
  have h2 : splitCh ' ' ('E' :: 'P' :: ' ' :: t) = ['E', 'P'] :: splitCh ' ' t :=
    splitCh_cons_ne (by decide) h1
  have h3 : splitCh ' ' ('E' :: 'E' :: 'P' :: ' ' :: t) =
      ['E', 'E', 'P'] :: splitCh ' ' t :=
    splitCh_cons_ne (by decide) h2
  have h4 : splitCh ' ' ('L' :: 'E' :: 'E' :: 'P' :: ' ' :: t) =
      ['L', 'E', 'E', 'P'] :: splitCh ' ' t :=
    splitCh_cons_ne (by decide) h3
  have h5 : splitCh ' ' ('S' :: 'L' :: 'E' :: 'E' :: 'P' :: ' ' :: t) =
      ['S', 'L', 'E', 'E', 'P'] :: splitCh ' ' t :=
    splitCh_cons_ne (by decide) h4
  exact h5

theorem constAppendNe {c1 c2 : Char} {l1 l2 : List Char} (p q : String)
    (hp : p.data = c1 :: l1) (hq : q.data = c2 :: l2) (hne : c1 ≠ c2) :
    ∀ s t : String, p ++ s ≠ q ++ t := by
  intro s t h
  have h2 := congrArg String.data h
  rw [strAppendData, strAppendData, hp, hq] at h2
  simp only [List.cons_append] at h2
  injection h2 with hc _
  exact hne hc

theorem sleepErrShape {cmd e : String} (he : handleSleepCommand cmd = .error e) :
    (∃ v, e = "invalid sleep command format: " ++ v) ∨
    (∃ v, e = "invalid milliseconds value: " ++ v) ∨
    (∃ v, e = "invalid seconds value: " ++ v) ∨
    (∃ v, e = "sleep time must end with 'ms' or 's': " ++ v) := by
  simp only [handleSleepCommand] at he
  split at he
  · split at he
    · split at he
      · exact absurd he (by simp)
      · injection he with h
        exact Or.inr (Or.inl ⟨_, h.symm⟩)
    · split at he
      · split at he
        · exact absurd he (by simp)
        · injection he with h
          exact Or.inr (Or.inr (Or.inl ⟨_, h.symm⟩))
      · injection he with h
        exact Or.inr (Or.inr (Or.inr ⟨_, h.symm⟩))
  · injection he with h
    exact Or.inl ⟨_, h.symm⟩

/-- C4. A `SLEEP `-prefixed directive parses exactly when it is
`SLEEP <n>ms` with `<n>` accepted by the integer parser, or `SLEEP <x>s`
with `<x>` accepted by the float parser (fractions only for seconds), the
magnitude-and-unit part holding no further space; every parse failure is
one of the pause-specific errors, distinct from the unknown-token error
for every token; and inside a wrapped token the pause error itself
surfaces through `executeSpecialCommand`. -/
theorem c4_sleepParse (cmd : String) (hpre : goStartsWith cmd "SLEEP " = true) :
    ((∃ p, handleSleepCommand cmd = .ok p) ↔
      ∃ t : String, cmd = "SLEEP " ++ t ∧ ' ' ∉ t.data ∧
        ((goEndsWith t "ms" = true ∧ (goAtoi (goTrimR t "ms")).isSome = true) ∨
         (goEndsWith t "ms" = false ∧ goEndsWith t "s" = true ∧
           goParseFloatOk (goTrimR t "s") = true))) ∧
    (∀ e, handleSleepCommand cmd = .error e → ∀ c, e ≠ unknownSpecialMsg c) ∧
    (∀ (host : Host) (e : String), handleSleepCommand cmd = .error e →
      executeSpecialCommand host ("<" ++ cmd ++ ">") = ([], some e)) := by
  obtain ⟨r, hr⟩ := (goStartsWith_iff cmd "SLEEP ").mp hpre
  refine ⟨?_, ?_, ?_⟩
  · constructor
    · rintro ⟨p, hp⟩
      unfold handleSleepCommand at hp
      rw [show splitCh ' ' cmd.data = "SLEEP".data :: splitCh ' ' r from by
        rw [hr]; exact splitCh_sleep r] at hp
      cases hsp : splitCh ' ' r with
      | nil => exact absurd hsp (splitCh_ne_nil _ _)
      | cons g gs =>
        rw [hsp] at hp
        cases gs with
        | nil =>
          obtain ⟨hg, hnotin⟩ := splitCh_single hsp
          subst hg
          refine ⟨String.mk g, by apply strExt; rw [strAppendData, hr],
            hnotin, ?_⟩
          simp only at hp
          by_cases hms : goEndsWith (String.mk g) "ms" = true
          · rw [if_pos hms] at hp
            cases hatoi : goAtoi (goTrimR (String.mk g) "ms") with
            | some n => exact Or.inl ⟨hms, rfl⟩
            | none => rw [hatoi] at hp; exact absurd hp (by simp)
          · rw [if_neg hms] at hp
            by_cases hsuf : goEndsWith (String.mk g) "s" = true
            · rw [if_pos hsuf] at hp
              by_cases hpf : goParseFloatOk (goTrimR (String.mk g) "s") = true
              · exact Or.inr ⟨by simpa using hms, hsuf, hpf⟩
              · rw [if_neg hpf] at hp
                exact absurd hp (by simp)
            · rw [if_neg hsuf] at hp
              exact absurd hp (by simp)
        | cons g2 gs2 => exact absurd hp (by simp)
    · rintro ⟨t, hcmd, hnospace, hcases⟩
      have hdata : cmd.data = "SLEEP ".data ++ t.data := by
        rw [hcmd, strAppendData]
      have hsplit2 : splitCh ' ' cmd.data = ["SLEEP".data, t.data] := by
        rw [hdata, splitCh_sleep, splitCh_no_sep hnospace]
      unfold handleSleepCommand
      rw [hsplit2]
      simp only [strEta]
      rcases hcases with ⟨hms, hiso⟩ | ⟨hms, hs, hpf⟩
      · rw [if_pos hms]
        cases hatoi : goAtoi (goTrimR t "ms") with
        | some n => exact ⟨.ms n, rfl⟩
        | none => rw [hatoi] at hiso; exact absurd hiso (by simp)
      · rw [if_neg (by simp [hms]), if_pos hs, if_pos hpf]
        exact ⟨.secs (goTrimR t "s"), rfl⟩
  · intro e he c
    unfold unknownSpecialMsg
    rcases sleepErrShape he with ⟨v, hv⟩ | ⟨v, hv⟩ | ⟨v, hv⟩ | ⟨v, hv⟩ <;> subst hv
    · exact constAppendNe _ _ rfl rfl (by decide) v c
    · exact constAppendNe _ _ rfl rfl (by decide) v c
    · exact constAppendNe _ _ rfl rfl (by decide) v c
    · exact constAppendNe _ _ rfl rfl (by decide) v c
  · intro host e he
    have h1 : goTrimR ("<" ++ cmd ++ ">") ">" = String.mk ('<' :: cmd.data) := by
      apply goTrimR_of_data
      rw [strAppendData, strAppendData]
      rfl
    have htrim : goTrimL (goTrimR ("<" ++ cmd ++ ">") ">") "<" = cmd := by
      rw [h1, @goTrimL_of_data (String.mk ('<' :: cmd.data)) "<" cmd.data rfl, strEta]
    simp only [executeSpecialCommand]
    rw [htrim, if_pos hpre, he]

/-- C4 witness: the characterization applied at the directive `SLEEP 500ms`. -/
theorem c4_sleepParse_witness :
    ((∃ p, handleSleepCommand "SLEEP 500ms" = .ok p) ↔
      ∃ t : String, "SLEEP 500ms" = "SLEEP " ++ t ∧ ' ' ∉ t.data ∧
        ((goEndsWith t "ms" = true ∧ (goAtoi (goTrimR t "ms")).isSome = true) ∨
         (goEndsWith t "ms" = false ∧ goEndsWith t "s" = true ∧
           goParseFloatOk (goTrimR t "s") = true))) ∧
    (∀ e, handleSleepCommand "SLEEP 500ms" = .error e → ∀ c, e ≠ unknownSpecialMsg c) ∧
    (∀ (host : Host) (e : String), handleSleepCommand "SLEEP 500ms" = .error e →
      executeSpecialCommand host ("<" ++ "SLEEP 500ms" ++ ">") = ([], some e)) :=
  c4_sleepParse "SLEEP 500ms" rfl

/-! ## C7, C10: the interactive-prompt tracker's respond handler -/

theorem respond_map_cases (host : Host) (ops : GitOps) (sessionID response : String) :
    (gitAddPatchRespond host ops sessionID response).1 = ops ∨
    ∃ op content, ops sessionID = some op ∧ op.Status = "active" ∧
      capturePane host = .ok content ∧ goContains content "EXIT_STATUS:" = true ∧
      (gitAddPatchRespond host ops sessionID response).1 = fun k =>
        if k = sessionID then
          some { op with Status :=
            if goContains content "EXIT_STATUS:0" then "finished" else "error" }
        else ops k := by
  cases hop : ops sessionID with
  | none => left; simp [gitAddPatchRespond, hop]
  | some op =>
    by_cases hact : op.Status = "active"
    · cases h1 : host.sendKeysErr response with
      | some e => left; simp [gitAddPatchRespond, hop, h1, hact]
      | none =>
        cases h2 : host.sendKeysErr "Enter" with
        | some e => left; simp [gitAddPatchRespond, hop, h1, h2, hact]
        | none =>
          cases h3 : capturePane host with
          | error e => left; simp [gitAddPatchRespond, hop, h1, h2, h3, hact]
          | ok content =>
            by_cases h4 : goContains content "EXIT_STATUS:" = true
            · right
              refine ⟨op, content, ?_, hact, ?_, h4,
                by simp [gitAddPatchRespond, hop, h1, h2, h3, h4, hact]⟩
              · rfl
              · rfl
            · left
              simp [gitAddPatchRespond, hop, h1, h2, h3, hact, h4]
    · left; simp [gitAddPatchRespond, hop, hact]

/-- C7. Respond on an unknown id is rejected not-found; on a non-active
record it is rejected invalid-state, the map untouched (terminal states are
sticky); a status that changes at all changes from `active` to `finished`
or to `error` only; and on an active record with a successful round trip
the transition is triggered exactly by the sentinel in the capture:
no `EXIT_STATUS:` leaves the map unchanged, the sentinel with
`EXIT_STATUS:0` sets `finished`, and the sentinel without it sets
`error`. -/
theorem c7_respond_stateMachine (host : Host) (ops : GitOps) (sessionID response : String) :
    (ops sessionID = none →
      gitAddPatchRespond host ops sessionID response =
        (ops, .error ("Git operation with session ID '" ++ sessionID ++ "' not found"))) ∧
    (∀ op, ops sessionID = some op → op.Status ≠ "active" →
      gitAddPatchRespond host ops sessionID response =
        (ops, .error ("Git operation '" ++ sessionID ++ "' is not active (status: " ++
          op.Status ++ ")"))) ∧
    (∀ op op', ops sessionID = some op →
      (gitAddPatchRespond host ops sessionID response).1 sessionID = some op' →
      op'.Status ≠ op.Status →
      op.Status = "active" ∧ (op'.Status = "finished" ∨ op'.Status = "error")) ∧
    (∀ op, ops sessionID = some op → op.Status ≠ "active" →
      (gitAddPatchRespond host ops sessionID response).1 = ops) ∧
    (∀ op content, ops sessionID = some op → op.Status = "active" →
      host.sendKeysErr response = none → host.sendKeysErr "Enter" = none →
      capturePane host = .ok content →
      (goContains content "EXIT_STATUS:" = false →
        (gitAddPatchRespond host ops sessionID response).1 = ops) ∧
      (goContains content "EXIT_STATUS:" = true →
        (gitAddPatchRespond host ops sessionID response).1 sessionID =
          some { op with Status :=
            if goContains content "EXIT_STATUS:0" then "finished" else "error" })) := by
  refine ⟨?_, ?_, ?_, ?_, ?_⟩
  · intro hop
    simp [gitAddPatchRespond, hop]
  · intro op hop hact
    simp [gitAddPatchRespond, hop, hact]
  · intro op op' hop hop' hne
    rcases respond_map_cases host ops sessionID response with heq |
      ⟨op0, content, hop0, hact0, _, _, heq⟩
    · rw [heq, hop] at hop'
      injection hop' with h
      exact absurd (by rw [h]) hne
    · have hop0' : op0 = op := by
        rw [hop0] at hop
        injection hop
      subst hop0'
      rw [heq] at hop'
      simp at hop'
      have hst : op'.Status =
          (if goContains content "EXIT_STATUS:0" then "finished" else "error") := by
        first
        | rw [← hop']
        | rw [hop']
      refine ⟨hact0, ?_⟩
      by_cases h5 : goContains content "EXIT_STATUS:0" = true
      · left
        rw [hst, if_pos h5]
      · right
        rw [hst, if_neg h5]
  · intro op hop hact
    simp [gitAddPatchRespond, hop, hact]
  · intro op content hop hact h1 h2 h3
    constructor
    · intro hns
      simp [gitAddPatchRespond, hop, hact, h1, h2, h3, hns]
    · intro hsent
      simp [gitAddPatchRespond, hop, hact, h1, h2, h3, hsent]

/-- C7 witness: respond on an id absent from an empty tracker map is
rejected, and respond on an active record whose capture shows the zero-exit
sentinel transitions it to `finished`. -/
theorem c7_respond_stateMachine_witness :
    (gitAddPatchRespond allOkHost (fun _ => none) "x" "y" =
      ((fun _ => none : GitOps),
        .error ("Git operation with session ID '" ++ "x" ++ "' not found"))) ∧
    (gitAddPatchRespond
        (⟨fun _ => none, fun _ => none, fun _ => none, .ok "EXIT_STATUS:0"⟩ : Host)
        (fun k => if k = "id2" then
          some (GitOperation.mk "id2" "git add -p" 7 "/w" "active") else none)
        "id2" "y").1 "id2" =
      some (GitOperation.mk "id2" "git add -p" 7 "/w" "finished") := by
  constructor
  · exact (c7_respond_stateMachine allOkHost (fun _ => none) "x" "y").1 rfl
  · have hstrip : stripAnsiCodes "EXIT_STATUS:0" = "EXIT_STATUS:0" := by
      simp [stripAnsiCodes, stripAux, sgrTail, esc, isSgrByte]
    have hcap : capturePane
        (⟨fun _ => none, fun _ => none, fun _ => none, .ok "EXIT_STATUS:0"⟩ : Host) =
        .ok "EXIT_STATUS:0" := by
      show Except.ok (stripAnsiCodes "EXIT_STATUS:0") = _
      rw [hstrip]
    have h := ((c7_respond_stateMachine
        (⟨fun _ => none, fun _ => none, fun _ => none, .ok "EXIT_STATUS:0"⟩ : Host)
        (fun k => if k = "id2" then
          some (GitOperation.mk "id2" "git add -p" 7 "/w" "active") else none)
        "id2" "y").2.2.2.2 (GitOperation.mk "id2" "git add -p" 7 "/w" "active")
        "EXIT_STATUS:0" (by simp) rfl rfl rfl hcap).2 (by decide)
    rw [h, if_pos (by decide)]

/-- C10. Respond mutates at most the `Status` field of the addressed
record: every other key is untouched, the map gains and loses no entries,
the addressed record keeps `SessionName`, `Command`, `StartTime` and
`WorkingDir` as created, and an absent id leaves the map identical. -/
theorem c10_respond_frame (host : Host) (ops : GitOps) (sessionID response : String) :
    (∀ k, k ≠ sessionID →
      (gitAddPatchRespond host ops sessionID response).1 k = ops k) ∧
    (∀ k, ((gitAddPatchRespond host ops sessionID response).1 k).isSome =
      (ops k).isSome) ∧
    (∀ op, ops sessionID = some op → ∃ st,
      (gitAddPatchRespond host ops sessionID response).1 sessionID =
        some { SessionName := op.SessionName, Command := op.Command,
               StartTime := op.StartTime, WorkingDir := op.WorkingDir,
               Status := st }) ∧
    (ops sessionID = none → (gitAddPatchRespond host ops sessionID response).1 = ops) := by
  rcases respond_map_cases host ops sessionID response with heq |
    ⟨op0, content, hop0, hact0, _, _, heq⟩
  · refine ⟨fun k _ => by rw [heq], fun k => by rw [heq], ?_, fun _ => heq⟩
    intro op hop
    exact ⟨op.Status, by rw [heq, hop]⟩
  · refine ⟨?_, ?_, ?_, ?_⟩
    · intro k hk
      rw [heq]
      simp [hk]
    · intro k
      rw [heq]
      by_cases hk : k = sessionID
      · subst hk
        simp [hop0]
      · simp [hk]
    · intro op hop
      have hop0' : op0 = op := by
        rw [hop0] at hop
        injection hop
      subst hop0'
      exact ⟨(if goContains content "EXIT_STATUS:0" then "finished" else "error"),
        by rw [heq]; simp⟩
    · intro hnone
      rw [hop0] at hnone
      exact absurd hnone (by simp)

/-- C10 witness: the frame at a concrete one-record map whose capture
carries the zero-exit sentinel. -/
theorem c10_respond_frame_witness :
    ((fun k => if k = "id1" then
        some (GitOperation.mk "id1" "git add -p" 7 "/w" "active") else none) "id1" =
      some (GitOperation.mk "id1" "git add -p" 7 "/w" "active")) ∧
    ∃ st,
      (gitAddPatchRespond
          (⟨fun _ => none, fun _ => none, fun _ => none, .ok "EXIT_STATUS:0"⟩ : Host)
          (fun k => if k = "id1" then
            some (GitOperation.mk "id1" "git add -p" 7 "/w" "active") else none)
          "id1" "y").1 "id1" =
        some { SessionName := "id1", Command := "git add -p", StartTime := 7,
               WorkingDir := "/w", Status := st } :=
  ⟨by simp,
    (c10_respond_frame
        (⟨fun _ => none, fun _ => none, fun _ => none, .ok "EXIT_STATUS:0"⟩ : Host)
        (fun k => if k = "id1" then
          some (GitOperation.mk "id1" "git add -p" 7 "/w" "active") else none)
        "id1" "y").2.2.1
      (GitOperation.mk "id1" "git add -p" 7 "/w" "active") (by simp)⟩

/-! ## C8: ANSI SGR stripping -/

theorem stripAux_nil : stripAux [] = [] := by
  simp [stripAux]

theorem stripAux_esc_some {cs rest : List Char} (h : sgrTail cs = some rest) :
    stripAux (esc :: cs) = stripAux rest := by
  rw [stripAux]
  rw [if_pos rfl]
  split
  next r' hr' =>
    rw [h] at hr'
    injection hr' with he
    rw [he]
  next hr' =>
    rw [h] at hr'
    exact absurd hr' (by simp)

theorem stripAux_esc_none {cs : List Char} (h : sgrTail cs = none) :
    stripAux (esc :: cs) = esc :: stripAux cs := by
  rw [stripAux]
  rw [if_pos rfl]
  split
  next r' hr' =>
    rw [h] at hr'
    exact absurd hr' (by simp)
  next => rfl

theorem stripAux_cons_ne {c : Char} (hc : c ≠ esc) (cs : List Char) :
    stripAux (c :: cs) = c :: stripAux cs := by
  rw [stripAux]
  rw [if_neg hc]

theorem dropWhile_sgr_run {ps : List Char} (hps : ∀ ch ∈ ps, isSgrByte ch = true) :
    ∀ b : List Char, (ps ++ 'm' :: b).dropWhile isSgrByte = 'm' :: b := by
  induction ps with
  | nil =>
    intro b
    simp [List.dropWhile_cons, isSgrByte]
  | cons x xs ih =>
    intro b
    have hx : isSgrByte x = true := hps x (by simp)
    simp only [List.cons_append, List.dropWhile_cons, hx, if_true]
    exact ih (fun ch hch => hps ch (by simp [hch])) b

theorem sgrTail_cons (c : Char) (r : List Char) :
    sgrTail (c :: r) =
      if c = '[' then
        (if (r.dropWhile isSgrByte).head? = some 'm'
          then some (r.dropWhile isSgrByte).tail else none)
      else none := rfl

theorem sgrTail_full {ps : List Char} (hps : ∀ ch ∈ ps, isSgrByte ch = true)
    (b : List Char) : sgrTail ('[' :: (ps ++ 'm' :: b)) = some b := by
  rw [sgrTail_cons, if_pos rfl, dropWhile_sgr_run hps b]
  simp

theorem dropWhile_head_m {r : List Char}
    (hh : (r.dropWhile isSgrByte).head? = some 'm') :
    ∃ tl, r.dropWhile isSgrByte = 'm' :: tl := by
  cases hd : r.dropWhile isSgrByte with
  | nil => rw [hd] at hh; simp at hh
  | cons d tl =>
    rw [hd] at hh
    simp only [List.head?_cons, Option.some.injEq] at hh
    exact ⟨tl, by rw [hh]⟩

theorem sgrTail_some_append : ∀ {a rest : List Char}, sgrTail a = some rest →
    ∀ z, sgrTail (a ++ z) = some (rest ++ z) := by
  intro a rest h z
  cases a with
  | nil => simp [sgrTail] at h
  | cons c r =>
    by_cases hc : c = '['
    · subst hc
      rw [sgrTail_cons, if_pos rfl] at h
      by_cases hh : (r.dropWhile isSgrByte).head? = some 'm'
      · rw [if_pos hh] at h
        injection h with hrest
        obtain ⟨tl, hdw⟩ := dropWhile_head_m hh
        have hdwz : (r ++ z).dropWhile isSgrByte = 'm' :: (tl ++ z) := by
          rw [List.dropWhile_append, hdw]
          simp
        show sgrTail ('[' :: (r ++ z)) = _
        rw [sgrTail_cons, if_pos rfl, hdwz]
        have hr2 : rest = tl := by
          rw [← hrest, hdw]
          rfl
        subst hr2
        simp
      · rw [if_neg hh] at h
        exact absurd h (by simp)
    · rw [sgrTail_cons, if_neg hc] at h
      exact absurd h (by simp)

theorem sgrTail_none_append : ∀ {a : List Char}, sgrTail a = none →
    ∀ y, sgrTail (a ++ esc :: y) = none := by
  intro a h y
  cases a with
  | nil =>
    show sgrTail (esc :: y) = none
    rw [sgrTail_cons, if_neg (by decide)]
  | cons c r =>
    by_cases hc : c = '['
    · subst hc
      rw [sgrTail_cons, if_pos rfl] at h
      show sgrTail ('[' :: (r ++ esc :: y)) = none
      rw [sgrTail_cons, if_pos rfl]
      by_cases hh : (r.dropWhile isSgrByte).head? = some 'm'
      · rw [if_pos hh] at h
        exact absurd h (by simp)
      · cases hd : r.dropWhile isSgrByte with
        | nil =>
          have hz : (r ++ esc :: y).dropWhile isSgrByte = esc :: y := by
            rw [List.dropWhile_append, hd]
            simp [List.dropWhile_cons, isSgrByte, esc]
          have hcond : ¬((r ++ esc :: y).dropWhile isSgrByte).head? = some 'm' := by
            rw [hz, List.head?_cons]
            intro hcon
            injection hcon with h2
            exact absurd h2 (by decide)
          rw [if_neg hcond]
        | cons d tl =>
          have hd2 : d ≠ 'm' := by
            intro hdm
            rw [hd, hdm] at hh
            simp at hh
          have hz : (r ++ esc :: y).dropWhile isSgrByte = d :: (tl ++ esc :: y) := by
            rw [List.dropWhile_append, hd]
            simp
          rw [if_neg (by rw [hz]; simp [hd2])]
    · show sgrTail (c :: (r ++ esc :: y)) = none
      rw [sgrTail_cons, if_neg hc]

theorem stripAux_removes {ps : List Char} (hps : ∀ ch ∈ ps, isSgrByte ch = true) :
    ∀ (n : Nat) (a b : List Char), a.length ≤ n →
      stripAux (a ++ (esc :: '[' :: (ps ++ 'm' :: b))) = stripAux a ++ stripAux b := by
  intro n
  induction n with
  | zero =>
    intro a b ha
    have ha0 : a = [] := by
      cases a
      · rfl
      · simp at ha
    subst ha0
    simp only [List.nil_append]
    rw [stripAux_esc_some (sgrTail_full hps b), stripAux_nil, List.nil_append]
  | succ n ih =>
    intro a b ha
    cases a with
    | nil =>
      simp only [List.nil_append]
      rw [stripAux_esc_some (sgrTail_full hps b), stripAux_nil, List.nil_append]
    | cons c a2 =>
      have ha2 : a2.length ≤ n := by
        simp only [List.length_cons] at ha
        omega
      simp only [List.cons_append]
      by_cases hc : c = esc
      · subst hc
        cases hs : sgrTail a2 with
        | some rest =>
          have h1 := sgrTail_some_append hs (esc :: '[' :: (ps ++ 'm' :: b))
          rw [stripAux_esc_some h1, stripAux_esc_some hs]
          exact ih rest b (by have := sgrTail_length hs; omega)
        | none =>
          have h1 := sgrTail_none_append hs ('[' :: (ps ++ 'm' :: b))
          rw [stripAux_esc_none h1, stripAux_esc_none hs]
          rw [ih a2 b ha2]
          simp
      · rw [stripAux_cons_ne hc, stripAux_cons_ne hc]
        rw [ih a2 b ha2]
        simp

theorem stripAux_id : ∀ (n : Nat) (s : List Char), s.length ≤ n →
    (¬ ∃ a ps b, (∀ ch ∈ ps, isSgrByte ch = true) ∧
      s = a ++ (esc :: '[' :: (ps ++ 'm' :: b))) →
    stripAux s = s := by
  intro n
  induction n with
  | zero =>
    intro s hs _
    have hs0 : s = [] := by
      cases s
      · rfl
      · simp at hs
    subst hs0
    exact stripAux_nil
  | succ n ih =>
    intro s hs hno
    cases s with
    | nil => exact stripAux_nil
    | cons c cs =>
      have hcslen : cs.length ≤ n := by
        simp only [List.length_cons] at hs
        omega
      have hno2 : ¬ ∃ a ps b, (∀ ch ∈ ps, isSgrByte ch = true) ∧
          cs = a ++ (esc :: '[' :: (ps ++ 'm' :: b)) := by
        rintro ⟨a, ps, b, hps, hcs⟩
        exact hno ⟨c :: a, ps, b, hps, by rw [hcs]; simp⟩
      by_cases hc : c = esc
      · subst hc
        have hsg : sgrTail cs = none := by
          cases hs2 : sgrTail cs with
          | none => rfl
          | some rest =>
            exfalso
            cases cs with
            | nil => simp [sgrTail] at hs2
            | cons c2 r =>
              by_cases hc2 : c2 = '['
              · subst hc2
                rw [sgrTail_cons, if_pos rfl] at hs2
                by_cases hh : (r.dropWhile isSgrByte).head? = some 'm'
                · obtain ⟨tl, hdw⟩ := dropWhile_head_m hh
                  have hr : r = r.takeWhile isSgrByte ++ 'm' :: tl := by
                    conv_lhs => rw [← List.takeWhile_append_dropWhile (p := isSgrByte)
                      (l := r)]
                    rw [hdw]
                  refine hno ⟨[], r.takeWhile isSgrByte, tl,
                    fun ch hch => List.mem_takeWhile_imp hch, ?_⟩
                  rw [List.nil_append]
                  rw [← hr]
                · rw [if_neg hh] at hs2
                  exact absurd hs2 (by simp)
              · rw [sgrTail_cons, if_neg hc2] at hs2
                exact absurd hs2 (by simp)
        rw [stripAux_esc_none hsg, ih cs hcslen hno2]
      · rw [stripAux_cons_ne hc cs, ih cs hcslen hno2]

/-- C8. The stripping path removes exactly the runs matching the SGR
pattern `ESC [ [0-9;]* m`: deleting such a run is homomorphic on the
surrounding text, a string holding no such run is returned byte-identical
(cursor-movement and other non-SGR escapes included), and the default
capture operation applies exactly this stripping. -/
theorem c8_stripSgr :
    (∀ a m b : String, IsSgrSeq m →
      stripAnsiCodes (a ++ m ++ b) = stripAnsiCodes a ++ stripAnsiCodes b) ∧
    (∀ s : String, (¬ ∃ a m b : String, IsSgrSeq m ∧ s = a ++ m ++ b) →
      stripAnsiCodes s = s) ∧
    (∀ host : Host, capturePane host = capturePaneRaw host true) ∧
    (∀ (host : Host) (o : String), host.captureRaw = .ok o →
      capturePaneRaw host true = .ok (stripAnsiCodes o)) := by
  refine ⟨?_, ?_, fun _ => rfl, ?_⟩
  · rintro a m b ⟨ps, hps, hm⟩
    apply strExt
    show stripAux (a ++ m ++ b).data = (stripAnsiCodes a ++ stripAnsiCodes b).data
    rw [strAppendData, strAppendData, hm]
    have hshape : a.data ++ (esc :: '[' :: ps ++ ['m']) ++ b.data =
        a.data ++ (esc :: '[' :: (ps ++ 'm' :: b.data)) := by
      simp
    rw [hshape, stripAux_removes hps a.data.length a.data b.data le_rfl]
    rw [strAppendData]
    rfl
  · intro s hno
    apply strExt
    show stripAux s.data = s.data
    apply stripAux_id s.data.length s.data le_rfl
    rintro ⟨a, ps, b, hps, hdecomp⟩
    refine hno ⟨String.mk a, String.mk (esc :: '[' :: ps ++ ['m']), String.mk b,
      ⟨ps, hps, rfl⟩, ?_⟩
    apply strExt
    rw [strAppendData, strAppendData]
    simp [hdecomp]
  · intro host o h
    unfold capturePaneRaw
    rw [h]
    rfl

/-- C8 witness: removing a concrete color sequence between text, and the
capture path applying the stripping. -/
theorem c8_stripSgr_witness :
    stripAnsiCodes ("x" ++ "\x1b[31m" ++ "y") =
      stripAnsiCodes "x" ++ stripAnsiCodes "y" ∧
    capturePaneRaw (⟨fun _ => none, fun _ => none, fun _ => none,
        .ok "\x1b[31mred"⟩ : Host) true = .ok (stripAnsiCodes "\x1b[31mred") :=
  ⟨c8_stripSgr.1 "x" "\x1b[31m" "y" ⟨['3', '1'], by decide, rfl⟩,
   c8_stripSgr.2.2.2 _ "\x1b[31mred" rfl⟩

end TmuxMcp
